import Mathlib

/-!
Shallow embedding of `src/src/search/knn_search.ts` (`KNNEngineSearch`),
a result-caching and statistics-tracking facade in front of an external
partitioned vector-search backend.

Modelling conventions:
* Machine floats of the query vector are modelled after the 4-decimal
  quantisation that `v.toFixed(4)` performs in `_getCacheKey`: a `Scalar`
  is an integer number of ten-thousandths, so `toFixed4` renders the exact
  fixed 4-decimal string of the value it denotes.
* JavaScript's decimal rendering of a nonnegative integer (template
  literal `interpolation` in `_getCacheKey`) is modelled by `natToDecimal`,
  built from `Nat.digits 10` and the core digit-character map.
* Arrays are mutable objects in JavaScript; to reason about aliasing
  (defensive copies) the model carries an explicit `Heap` of arrays and
  passes array references (`Nat` indices).  `Array.from spread`-copying an
  array (`[...xs]` in the source) allocates a fresh reference holding the
  same element list; mutating one reference never changes another.
* The `lru-cache` package is not part of this repository.  `LRUCache` is
  modelled from the spec, §4.2: a capacity-bounded store whose `get`
  marks the entry most-recently-used and whose `set` evicts the
  least-recently-used entry when a new key would exceed capacity.
* `types.ts` is not part of the reviewed sources.  `SearchOptions` is
  modelled from the spec, §3: filter and probes, "plus any other
  backend-specific knobs" (the `extra` field); the filter is opaque to the
  core, which only ever uses its textual representation, so it is carried
  as that text.
* The timer (`createTimer` from `profiling.ts`, also outside the reviewed
  sources) is modelled from the spec as a nonnegative elapsed duration,
  supplied per call as the `elapsed : Nat` argument read by
  `getElapsed`.
* The asynchronous backend call is the only suspension point; a single
  call is modelled as a pure state transformer taking the backend as a
  function that either returns a result list or fails.
-/

/-- One query-vector component, in units of `1e-4` (the granularity that
`toFixed(4)` keys on). -/
abbrev Scalar := Int

/-- A query vector (`Vector` in the source). -/
abbrev Vector := List Scalar

/-- One matched record; opaque to the core beyond being copyable
(an identifier and a distance). -/
structure SearchResult where
  id : String
  dist : Int
deriving DecidableEq, Repr

/-- Per-call options (`SearchOptions`).  `filter` holds the filter's
textual representation (the core only ever evaluates
`options.filter.toString().length`); `extra` — modelled from the spec:
"plus any other backend-specific knobs" (`types.ts` is not among the
reviewed sources). -/
structure SearchOptions where
  filter : Option String
  probes : Option Nat
  extra : Option String
deriving DecidableEq, Repr

/-- Constructor options (`KNNOptionsPartitioned`): both fields optional,
`undefined` fields fall back to defaults. -/
structure KNNOptionsPartitioned where
  metric : Option String
  cacheResults : Option Bool
deriving DecidableEq, Repr

/-- The merged, fully-defaulted configuration
(`Required KNNOptionsPartitioned` in the source). -/
structure KNNOptions where
  metric : String
  cacheResults : Bool
deriving DecidableEq, Repr

/-- Constructor merge of defaults with the caller's options: a field that
is `undefined` keeps its default (`metric` defaults to `"euclidean"`,
`cacheResults` to `true`). -/
def mergeOptions (o : KNNOptionsPartitioned) : KNNOptions :=
  { metric := o.metric.getD "euclidean"
  , cacheResults := o.cacheResults.getD true }

/-- Modelled from the spec, §4.2 (the `lru-cache` package is external to
this repository): a capacity-bounded key→value store; `entries` is kept
most-recently-used first. -/
structure LRUCache (α : Type) where
  max : Nat
  entries : List (String × α)
deriving DecidableEq, Repr

/-- Modelled from the spec, §4.2: lookup; on a hit the entry is moved to
the front (most-recently-used); a miss leaves the cache unchanged. -/
def LRUCache.get {α : Type} (c : LRUCache α) (key : String) :
    Option α × LRUCache α :=
  match c.entries.find? (fun p => p.1 == key) with
  | none => (none, c)
  | some p =>
      (some p.2,
       { max := c.max
       , entries := (key, p.2) :: c.entries.filter (fun q => ¬(q.1 == key)) })

/-- Modelled from the spec, §4.2: insert/overwrite; the new entry becomes
most-recently-used, and if capacity would be exceeded the
least-recently-used entry (the last one) is evicted — never an error. -/
def LRUCache.set {α : Type} (c : LRUCache α) (key : String) (v : α) :
    LRUCache α :=
  let es := (key, v) :: c.entries.filter (fun q => ¬(q.1 == key))
  { max := c.max
  , entries := if c.max < es.length then es.dropLast else es }

/-- Modelled from the spec, §4.2: current entry count. -/
def LRUCache.size {α : Type} (c : LRUCache α) : Nat :=
  c.entries.length

/-- Modelled from the spec, §4.2: empty all entries. -/
def LRUCache.clear {α : Type} (c : LRUCache α) : LRUCache α :=
  { max := c.max, entries := [] }

/-- Pure lookup (no recency update), used to state properties. -/
def LRUCache.lookup {α : Type} (c : LRUCache α) (key : String) : Option α :=
  (c.entries.find? (fun p => p.1 == key)).map (·.2)

/-- The arena of array objects; an array reference is an index into it. -/
structure Heap where
  arrays : List (List SearchResult)
deriving DecidableEq, Repr

/-- Allocate a fresh array object holding `v` (a JavaScript array literal
or spread copy), returning the new heap and the fresh reference. -/
def Heap.alloc (h : Heap) (v : List SearchResult) : Heap × Nat :=
  (⟨h.arrays ++ [v]⟩, h.arrays.length)

/-- Read the element list held by an array reference. -/
def Heap.get (h : Heap) (r : Nat) : List SearchResult :=
  h.arrays.getD r []

/-- Mutate the array object behind reference `r` in place. -/
def Heap.write (h : Heap) (r : Nat) (v : List SearchResult) : Heap :=
  ⟨h.arrays.set r v⟩

/-- The running statistics record (`this.stats` in the source). -/
structure KNNStats where
  calls : Nat
  totalTime : Nat
  lastSearchTime : Nat
  cacheHits : Nat
  cacheMisses : Nat
deriving DecidableEq, Repr

/-- The mutable state of one `KNNEngineSearch` instance: its merged
options, the result cache (holding array references), the array heap, and
the statistics. -/
structure EngineState where
  options : KNNOptions
  resultCache : LRUCache Nat
  heap : Heap
  stats : KNNStats
deriving DecidableEq, Repr

/-- The constructor: merge options with defaults, create the result cache
with capacity `1000`, and zero the statistics. -/
def initState (o : KNNOptionsPartitioned) : EngineState :=
  { options := mergeOptions o
  , resultCache := { max := 1000, entries := [] }
  , heap := ⟨[]⟩
  , stats := { calls := 0, totalTime := 0, lastSearchTime := 0
             , cacheHits := 0, cacheMisses := 0 } }

/-- Decimal rendering of a nonnegative integer, as JavaScript template
literals render it: the base-10 digits most-significant first
(`Nat.digits` is least-significant first, hence the reverse), and `"0"`
for zero. -/
def natToDecimal (n : Nat) : String :=
  if n = 0 then "0"
  else String.mk (((Nat.digits 10 n).map Nat.digitChar).reverse)

/-- The fractional part of `toFixed(4)`: four digits, zero-padded on the
left. -/
def pad4 (n : Nat) : String :=
  let s := natToDecimal n
  String.mk (List.replicate (4 - s.length) '0') ++ s

/-- Rendering of one query component by `v.toFixed(4)`: the scalar denotes
`v = s / 10000`, so the string is sign, integer part, `'.'`, and the
4-digit zero-padded fractional part. -/
def toFixed4 (s : Scalar) : String :=
  (if s < 0 then "-" else "")
    ++ natToDecimal (s.natAbs / 10000) ++ "." ++ pad4 (s.natAbs % 10000)

/-- The filter fingerprint of `_getCacheKey`: the fixed sentinel
`"noFilter"` when no filter is present, otherwise `"filterHash:"`
followed by the length of the filter's textual representation. -/
def filterInfo (filter : Option String) : String :=
  match filter with
  | some f => "filterHash:" ++ natToDecimal f.length
  | none => "noFilter"

/-- The probes fragment of `_getCacheKey`: `"probes" ++ p` when `probes`
is truthy (present and nonzero — `0` is falsy in JavaScript), else the
empty string. -/
def probesInfo (probes : Option Nat) : String :=
  match probes with
  | some p => if p = 0 then "" else "probes" ++ natToDecimal p
  | none => ""

/-- `_getCacheKey`: the query components rendered to 4 decimals and joined
by commas, then `_k`, the neighbour count, the configured metric, the
filter fingerprint and the probes fragment, underscore-separated. -/
def getCacheKey (metric : String) (query : Vector) (k : Nat)
    (options : SearchOptions) : String :=
  let queryHash := String.intercalate "," (query.map toFixed4)
  queryHash ++ "_k" ++ natToDecimal k ++ "_" ++ metric ++ "_"
    ++ filterInfo options.filter ++ "_" ++ probesInfo options.probes

/-- The argument record the facade hands to
`PartitionedVectorDB.findNearest`.  `extra` mirrors the spec-modelled
extra per-call knobs: the backend would accept them, and the field records
what the facade actually forwards. -/
structure BackendOptions where
  filter : Option String
  distanceMetric : String
  probes : Option Nat
  extra : Option String
deriving DecidableEq, Repr

/-- The external collaborator: given query, `k` and options it either
returns a result list or fails. -/
abbrev Backend := Vector → Nat → BackendOptions → Except String (List SearchResult)

/-- The object literal the facade passes to the backend: exactly `filter`
from the per-call options, `distanceMetric` from the configured metric,
and `probes` from the per-call options — nothing else is forwarded. -/
def backendArgs (metric : String) (options : SearchOptions) : BackendOptions :=
  { filter := options.filter
  , distanceMetric := metric
  , probes := options.probes
  , extra := none }

/-- A record of one backend invocation (for stating which arguments the
facade passed down). -/
structure BackendCall where
  query : Vector
  k : Nat
  options : BackendOptions
deriving DecidableEq, Repr

deriving instance DecidableEq for Except

/-- The observable outcome of one `findNearest` call: the returned array
reference (or the propagated failure), the engine state after the call,
and the backend invocation this call performed, if any. -/
structure CallResult where
  outcome : Except String Nat
  state : EngineState
  backendCall : Option BackendCall
deriving DecidableEq

/-- The element list behind the returned array reference (what the caller
observes), or the propagated failure. -/
def CallResult.returned (r : CallResult) : Except String (List SearchResult) :=
  r.outcome.map r.state.heap.get

/-- The tail of `findNearest` from the backend call on (the code after the
cache-hit return): build the backend argument record — the object literal
passes exactly `filter`, `distanceMetric` from the configuration, and
`probes`; no other per-call option is forwarded — then on failure stop the
timer and re-raise, and on success allocate the result array, store a
spread copy of it under the cache key when caching is enabled, and
finalise the timing statistics. -/
def callBackendAndFinish (backend : Backend) (elapsed : Nat)
    (typedQuery : Vector) (k : Nat) (options : SearchOptions)
    (s : EngineState) : CallResult :=
  let bopts : BackendOptions := backendArgs s.options.metric options
  match backend typedQuery k bopts with
  | Except.error e =>
      { outcome := Except.error e
      , state := s
      , backendCall := some { query := typedQuery, k := k, options := bopts } }
  | Except.ok results =>
      let (heap1, rResults) := s.heap.alloc results
      let s1 :=
        if s.options.cacheResults then
          let cacheKey := getCacheKey s.options.metric typedQuery k options
          let (heap2, rStore) := heap1.alloc results
          { s with heap := heap2,
                   resultCache := s.resultCache.set cacheKey rStore }
        else { s with heap := heap1 }
      let stats1 :=
        { s1.stats with lastSearchTime := elapsed,
                        totalTime := s1.stats.totalTime + elapsed }
      { outcome := Except.ok rResults
      , state := { s1 with stats := stats1 }
      , backendCall := some { query := typedQuery, k := k, options := bopts } }

/-- `findNearest`: bump `calls`, normalise the query (the identity on the
modelled vector), and when caching is enabled look the key up — on a hit
bump `cacheHits`, finalise the timing statistics and return a spread copy
of the cached array without touching the backend; on a miss bump
`cacheMisses` and fall through to the backend call. -/
def findNearest (backend : Backend) (elapsed : Nat) (query : Vector)
    (k : Nat) (options : SearchOptions) (s : EngineState) : CallResult :=
  let stats0 := { s.stats with calls := s.stats.calls + 1 }
  let s0 := { s with stats := stats0 }
  let typedQuery := query
  if s0.options.cacheResults then
    let cacheKey := getCacheKey s0.options.metric typedQuery k options
    match s0.resultCache.get cacheKey with
    | (some cached, cache1) =>
        let (heap1, rCopy) := s0.heap.alloc (s0.heap.get cached)
        let stats1 :=
          { stats0 with cacheHits := stats0.cacheHits + 1,
                        lastSearchTime := elapsed,
                        totalTime := stats0.totalTime + elapsed }
        { outcome := Except.ok rCopy
        , state := { s0 with stats := stats1, resultCache := cache1,
                             heap := heap1 }
        , backendCall := none }
    | (none, _) =>
        let s1 := { s0 with stats :=
          { stats0 with cacheMisses := stats0.cacheMisses + 1 } }
        callBackendAndFinish backend elapsed typedQuery k options s1
  else
    callBackendAndFinish backend elapsed typedQuery k options s0

/-- The statistics snapshot returned by `getStats`. -/
structure KNNStatsPartitioned where
  calls : Nat
  totalTime : Nat
  avgTime : Rat
  lastSearchTime : Nat
  cacheHits : Nat
  cacheMisses : Nat
  cachedResultsCount : Nat
  options : KNNOptions
deriving DecidableEq, Repr

/-- `getStats`: a copy of the counters, the derived average (guarded
against division by zero), the current cache size, and a copy of the
options. -/
def getStats (s : EngineState) : KNNStatsPartitioned :=
  { calls := s.stats.calls
  , totalTime := s.stats.totalTime
  , avgTime := if 0 < s.stats.calls
      then (s.stats.totalTime : Rat) / (s.stats.calls : Rat) else 0
  , lastSearchTime := s.stats.lastSearchTime
  , cacheHits := s.stats.cacheHits
  , cacheMisses := s.stats.cacheMisses
  , cachedResultsCount := s.resultCache.size
  , options := s.options }

/-- `clearCache`: empty the result cache. -/
def clearCache (s : EngineState) : EngineState :=
  { s with resultCache := s.resultCache.clear }

/-- The inputs of one `findNearest` invocation in a call sequence. -/
structure CallSpec where
  backend : Backend
  elapsed : Nat
  query : Vector
  k : Nat
  options : SearchOptions

/-- Run a sequence of `findNearest` calls, threading the engine state
(failed calls also leave their state, as the exception propagates past a
mutated engine). -/
def runCalls (cs : List CallSpec) (s : EngineState) : EngineState :=
  match cs with
  | [] => s
  | c :: rest =>
      runCalls rest (findNearest c.backend c.elapsed c.query c.k c.options s).state

/-- One raw cache operation, for stating cache-level properties. -/
inductive CacheOp where
  | getOp (key : String)
  | setOp (key : String) (val : Nat)
deriving DecidableEq, Repr

/-- Apply one raw cache operation. -/
def applyOp (c : LRUCache Nat) (op : CacheOp) : LRUCache Nat :=
  match op with
  | CacheOp.getOp key => (c.get key).2
  | CacheOp.setOp key v => c.set key v

/-- Apply a sequence of raw cache operations. -/
def applyOps (c : LRUCache Nat) (ops : List CacheOp) : LRUCache Nat :=
  ops.foldl applyOp c

/-- Well-formedness tying cache and heap together: every cached array
reference points into the heap. -/
def CacheWF (s : EngineState) : Prop :=
  ∀ p ∈ s.resultCache.entries, p.2 < s.heap.arrays.length

/-! ## Helper lemmas -/

/-- The core digit-character map is injective on single digits. -/
theorem digitChar_inj_lt : ∀ a < 10, ∀ b < 10,
    Nat.digitChar a = Nat.digitChar b → a = b := by decide

/-- Mapping the digit-character over two digit lists is injective. -/
theorem map_digitChar_inj : ∀ (l1 l2 : List Nat), (∀ d ∈ l1, d < 10) →
    (∀ d ∈ l2, d < 10) →
    l1.map Nat.digitChar = l2.map Nat.digitChar → l1 = l2
  | [], [], _, _, _ => rfl
  | [], _ :: _, _, _, h => by simp at h
  | _ :: _, [], _, _, h => by simp at h
  | a :: l1, b :: l2, h1, h2, h => by
      simp only [List.map_cons, List.cons.injEq] at h
      have ha := h1 a (by simp)
      have hb := h2 b (by simp)
      have hd := digitChar_inj_lt a ha b hb h.1
      have ht := map_digitChar_inj l1 l2
        (fun d hd' => h1 d (by simp [hd'])) (fun d hd' => h2 d (by simp [hd'])) h.2
      rw [hd, ht]

/-- The modelled decimal rendering of a natural number is injective. -/
theorem natToDecimal_injective : Function.Injective natToDecimal := by
  intro a b h
  unfold natToDecimal at h
  by_cases ha : a = 0 <;> by_cases hb : b = 0
  · rw [ha, hb]
  · exfalso
    rw [if_pos ha, if_neg hb] at h
    have hdata := congrArg String.data h
    have hrev : List.map Nat.digitChar (Nat.digits 10 b) = ['0'] := by
      have : (((Nat.digits 10 b).map Nat.digitChar).reverse) = ['0'] := hdata.symm
      have := congrArg List.reverse this
      simpa using this
    obtain ⟨d, hdig, hchar⟩ : ∃ d, Nat.digits 10 b = [d] ∧ Nat.digitChar d = '0' := by
      cases hdigs : Nat.digits 10 b with
      | nil => rw [hdigs] at hrev; simp at hrev
      | cons d t =>
          rw [hdigs] at hrev
          simp only [List.map_cons, List.cons.injEq] at hrev
          have ht : t = [] := by
            cases t with
            | nil => rfl
            | cons x xs => simp at hrev
          exact ⟨d, by rw [ht], hrev.1⟩
    have hd10 : d < 10 := Nat.digits_lt_base (by norm_num) (by rw [hdig]; simp)
    have hd0 : d = 0 := digitChar_inj_lt d hd10 0 (by norm_num) hchar
    have hofd := Nat.ofDigits_digits 10 b
    rw [hdig, hd0] at hofd
    exact hb (by simpa [Nat.ofDigits] using hofd.symm)
  · exfalso
    rw [if_neg ha, if_pos hb] at h
    have hdata := congrArg String.data h
    have hrev : List.map Nat.digitChar (Nat.digits 10 a) = ['0'] := by
      have : (((Nat.digits 10 a).map Nat.digitChar).reverse) = ['0'] := hdata
      have := congrArg List.reverse this
      simpa using this
    obtain ⟨d, hdig, hchar⟩ : ∃ d, Nat.digits 10 a = [d] ∧ Nat.digitChar d = '0' := by
      cases hdigs : Nat.digits 10 a with
      | nil => rw [hdigs] at hrev; simp at hrev
      | cons d t =>
          rw [hdigs] at hrev
          simp only [List.map_cons, List.cons.injEq] at hrev
          have ht : t = [] := by
            cases t with
            | nil => rfl
            | cons x xs => simp at hrev
          exact ⟨d, by rw [ht], hrev.1⟩
    have hd10 : d < 10 := Nat.digits_lt_base (by norm_num) (by rw [hdig]; simp)
    have hd0 : d = 0 := digitChar_inj_lt d hd10 0 (by norm_num) hchar
    have hofd := Nat.ofDigits_digits 10 a
    rw [hdig, hd0] at hofd
    exact ha (by simpa [Nat.ofDigits] using hofd.symm)
  · rw [if_neg ha, if_neg hb] at h
    have hdata := congrArg String.data h
    simp only [] at hdata
    have hmaps : (Nat.digits 10 a).map Nat.digitChar
        = (Nat.digits 10 b).map Nat.digitChar := by
      have := congrArg List.reverse hdata
      simpa using this
    have hdigs := map_digitChar_inj _ _
      (fun d hd => Nat.digits_lt_base (by norm_num) hd)
      (fun d hd => Nat.digits_lt_base (by norm_num) hd) hmaps
    exact Nat.digits_inj_iff.mp hdigs

/-- Right cancellation for string concatenation. -/
theorem string_append_right_cancel {s t u : String} (h : s ++ u = t ++ u) :
    s = t := by
  have hd := congrArg String.data h
  simp only [String.data_append] at hd
  exact String.ext (List.append_cancel_right hd)

/-- Left cancellation for string concatenation. -/
theorem string_append_left_cancel {s t u : String} (h : u ++ s = u ++ t) :
    s = t := by
  have hd := congrArg String.data h
  simp only [String.data_append] at hd
  exact String.ext (List.append_cancel_left hd)

/-- A cache `get` keeps the capacity. -/
theorem LRUCache.max_get {α : Type} (c : LRUCache α) (key : String) :
    ((c.get key).2).max = c.max := by
  unfold LRUCache.get
  cases c.entries.find? (fun p => p.1 == key) <;> rfl

/-- A cache `set` keeps the capacity. -/
theorem LRUCache.max_set {α : Type} (c : LRUCache α) (key : String) (v : α) :
    (c.set key v).max = c.max := rfl

/-- A cache `get` never grows the cache. -/
theorem LRUCache.size_get_le {α : Type} (c : LRUCache α) (key : String)
    (h : c.size ≤ c.max) : ((c.get key).2).size ≤ c.max := by
  unfold LRUCache.get
  cases hf : c.entries.find? (fun p => p.1 == key) with
  | none => exact h
  | some p =>
      have hp : p ∈ c.entries := List.mem_of_find?_eq_some hf
      have hpk := @List.find?_some _ (fun q => q.1 == key) p c.entries hf
      have hlt : (c.entries.filter (fun q => ¬(q.1 == key))).length
          < c.entries.length := by
        rw [List.length_filter_lt_length_iff_exists]
        exact ⟨p, hp, by simp [hpk]⟩
      unfold LRUCache.size at *
      simp only [List.length_cons]
      omega

/-- A cache `set` never pushes the size past the capacity. -/
theorem LRUCache.size_set_le {α : Type} (c : LRUCache α) (key : String)
    (v : α) (h : c.size ≤ c.max) : (c.set key v).size ≤ c.max := by
  unfold LRUCache.set
  have hfl := List.length_filter_le (fun q => ¬(q.1 == key)) c.entries
  unfold LRUCache.size at *
  dsimp only
  split
  · next hlt =>
      rw [List.length_dropLast]
      simp only [List.length_cons] at *
      omega
  · next hge =>
      simp only [List.length_cons] at *
      omega

/-- Applying any sequence of raw cache operations keeps the capacity and
never pushes the size past it. -/
theorem applyOps_size_le : ∀ (ops : List CacheOp) (c : LRUCache Nat),
    c.size ≤ c.max →
    (applyOps c ops).max = c.max ∧ (applyOps c ops).size ≤ c.max
  | [], c, h => ⟨rfl, h⟩
  | op :: rest, c, h => by
      have hstep : (applyOp c op).max = c.max ∧ (applyOp c op).size ≤ c.max := by
        cases op with
        | getOp key => exact ⟨LRUCache.max_get c key, LRUCache.size_get_le c key h⟩
        | setOp key v => exact ⟨LRUCache.max_set c key v, LRUCache.size_set_le c key v h⟩
      have ih := applyOps_size_le rest (applyOp c op)
        (by rw [hstep.1]; exact hstep.2)
      unfold applyOps at *
      simp only [List.foldl_cons]
      have h2 := ih.2
      rw [hstep.1] at h2
      exact ⟨ih.1.trans hstep.1, h2⟩

/-- Characterisation of a cache miss in terms of the entries. -/
theorem LRUCache.lookup_eq_none_iff {α : Type} (c : LRUCache α) (key : String) :
    c.lookup key = none ↔ ∀ p ∈ c.entries, (p.1 == key) = false := by
  unfold LRUCache.lookup
  rw [Option.map_eq_none', List.find?_eq_none]
  constructor
  · intro h p hp
    have := h p hp
    simpa using this
  · intro h p hp
    simp [h p hp]

/-- Every entry surviving a `get` carries a value already in the cache. -/
theorem LRUCache.mem_get_entries {α : Type} {c : LRUCache α} {key : String}
    {p : String × α} (h : p ∈ ((c.get key).2).entries) :
    ∃ q ∈ c.entries, q.2 = p.2 := by
  unfold LRUCache.get at h
  cases hf : c.entries.find? (fun r => r.1 == key) with
  | none => rw [hf] at h; exact ⟨p, h, rfl⟩
  | some q =>
      rw [hf] at h
      simp only [List.mem_cons] at h
      cases h with
      | inl h => exact ⟨q, List.mem_of_find?_eq_some hf, by rw [h]⟩
      | inr h => exact ⟨p, (List.mem_filter.mp h).1, rfl⟩

/-- Every entry after a `set` is the new one or carries an old value. -/
theorem LRUCache.mem_set_entries {α : Type} {c : LRUCache α} {key : String}
    {v : α} {p : String × α} (h : p ∈ (c.set key v).entries) :
    p.2 = v ∨ ∃ q ∈ c.entries, q.2 = p.2 := by
  unfold LRUCache.set at h
  dsimp only at h
  have hmem : p ∈ (key, v) :: c.entries.filter (fun q => ¬(q.1 == key)) := by
    by_cases hlt : c.max < (((key, v) :: c.entries.filter (fun q => ¬(q.1 == key))).length)
    · rw [if_pos hlt] at h
      exact (List.dropLast_sublist _).mem h
    · rw [if_neg hlt] at h
      exact h
  simp only [List.mem_cons] at hmem
  cases hmem with
  | inl h' => exact Or.inl (by rw [h'])
  | inr h' => exact Or.inr ⟨p, (List.mem_filter.mp h').1, rfl⟩

/-- A `set` under a different key cannot create an entry for a key that
was absent. -/
theorem LRUCache.lookup_set_none {α : Type} {c : LRUCache α}
    {key key' : String} {v : α} (hne : key' ≠ key)
    (h : c.lookup key' = none) : (c.set key v).lookup key' = none := by
  rw [LRUCache.lookup_eq_none_iff] at h ⊢
  intro p hp
  unfold LRUCache.set at hp
  dsimp only at hp
  have hmem : p ∈ (key, v) :: c.entries.filter (fun q => ¬(q.1 == key)) := by
    by_cases hlt : c.max < (((key, v) :: c.entries.filter (fun q => ¬(q.1 == key))).length)
    · rw [if_pos hlt] at hp
      exact (List.dropLast_sublist _).mem hp
    · rw [if_neg hlt] at hp
      exact hp
  simp only [List.mem_cons] at hmem
  cases hmem with
  | inl h' => rw [h']; exact beq_eq_false_iff_ne.mpr (fun hk => hne hk.symm)
  | inr h' => exact h p (List.mem_filter.mp h').1

/-- Inserting a new key into a full cache evicts exactly the
least-recently-used (last) entry. -/
theorem LRUCache.set_full_new_key {α : Type} (c : LRUCache α) (key : String)
    (v : α) (hnew : c.lookup key = none) (hfull : c.size = c.max)
    (hpos : 0 < c.max) :
    (c.set key v).entries = (key, v) :: c.entries.dropLast := by
  have hall := (LRUCache.lookup_eq_none_iff c key).mp hnew
  have hfilter : c.entries.filter (fun q => ¬(q.1 == key)) = c.entries := by
    rw [List.filter_eq_self]
    intro p hp
    simp [hall p hp]
  unfold LRUCache.set
  dsimp only
  rw [hfilter]
  unfold LRUCache.size at hfull
  have hlen : c.max < ((key, v) :: c.entries).length := by
    simp only [List.length_cons]
    omega
  rw [if_pos hlen]
  have hne : c.entries ≠ [] := by
    intro hnil
    rw [hnil] at hfull
    simp at hfull
    omega
  exact List.dropLast_cons_of_ne_nil hne

/-- Writing through one array reference leaves every other array object
unchanged. -/
theorem Heap.get_write_ne (h : Heap) {r r' : Nat} (v : List SearchResult)
    (hne : r' ≠ r) : (h.write r v).get r' = h.get r' := by
  unfold Heap.write Heap.get
  dsimp only
  rw [List.getD_eq_getElem?_getD, List.getD_eq_getElem?_getD,
    List.getElem?_set_ne (fun hh => hne hh.symm)]

/-- Equation for the failure path of the backend call: the error is
re-raised unchanged, the engine state (cache, heap, statistics) is left
exactly as it was, and exactly one backend invocation happened. -/
theorem callBackendAndFinish_error (backend : Backend) (e : Nat)
    (q : Vector) (k : Nat) (opts : SearchOptions) (s : EngineState)
    (err : String)
    (hb : backend q k (backendArgs s.options.metric opts) = Except.error err) :
    callBackendAndFinish backend e q k opts s =
      { outcome := Except.error err
      , state := s
      , backendCall := some { query := q, k := k
                            , options := backendArgs s.options.metric opts } } := by
  simp only [callBackendAndFinish, hb]

theorem callBackendAndFinish_ok_cache (backend : Backend) (e : Nat)
    (q : Vector) (k : Nat) (opts : SearchOptions) (s : EngineState)
    (R : List SearchResult)
    (hc : s.options.cacheResults = true)
    (hb : backend q k (backendArgs s.options.metric opts) = Except.ok R) :
    callBackendAndFinish backend e q k opts s =
      { outcome := Except.ok s.heap.arrays.length
      , state :=
          { s with
            heap := ⟨(s.heap.arrays ++ [R]) ++ [R]⟩,
            resultCache := s.resultCache.set
              (getCacheKey s.options.metric q k opts) (s.heap.arrays.length + 1),
            stats := { s.stats with
                lastSearchTime := e,
                totalTime := s.stats.totalTime + e } }
      , backendCall := some { query := q, k := k
                            , options := backendArgs s.options.metric opts } } := by
  simp only [callBackendAndFinish, hb, Heap.alloc, hc, if_true]
  simp [List.length_append]

theorem callBackendAndFinish_ok_nocache (backend : Backend) (e : Nat)
    (q : Vector) (k : Nat) (opts : SearchOptions) (s : EngineState)
    (R : List SearchResult)
    (hc : s.options.cacheResults = false)
    (hb : backend q k (backendArgs s.options.metric opts) = Except.ok R) :
    callBackendAndFinish backend e q k opts s =
      { outcome := Except.ok s.heap.arrays.length
      , state :=
          { s with
            heap := ⟨s.heap.arrays ++ [R]⟩,
            stats := { s.stats with
                lastSearchTime := e,
                totalTime := s.stats.totalTime + e } }
      , backendCall := some { query := q, k := k
                            , options := backendArgs s.options.metric opts } } := by
  simp only [callBackendAndFinish, hb, Heap.alloc, hc]
  simp

theorem findNearest_miss_eq {backend : Backend} {e : Nat} {q : Vector}
    {k : Nat} {opts : SearchOptions} {s : EngineState}
    (hc : s.options.cacheResults = true)
    (hmiss : s.resultCache.lookup (getCacheKey s.options.metric q k opts) = none) :
    findNearest backend e q k opts s =
      callBackendAndFinish backend e q k opts
        { s with stats := { s.stats with
            calls := s.stats.calls + 1,
            cacheMisses := s.stats.cacheMisses + 1 } } := by
  have hf : s.resultCache.entries.find?
      (fun p => p.1 == getCacheKey s.options.metric q k opts) = none :=
    Option.map_eq_none'.mp hmiss
  have hget : s.resultCache.get (getCacheKey s.options.metric q k opts)
      = (none, s.resultCache) := by
    unfold LRUCache.get
    rw [hf]
  simp only [findNearest, hc, if_true, hget]

theorem findNearest_nocache_eq {backend : Backend} {e : Nat} {q : Vector}
    {k : Nat} {opts : SearchOptions} {s : EngineState}
    (hc : s.options.cacheResults = false) :
    findNearest backend e q k opts s =
      callBackendAndFinish backend e q k opts
        { s with stats := { s.stats with calls := s.stats.calls + 1 } } := by
  simp only [findNearest, hc]
  simp

theorem findNearest_hit_eq {backend : Backend} {e : Nat} {q : Vector}
    {k : Nat} {opts : SearchOptions} {s : EngineState} {pf : String × Nat}
    (hc : s.options.cacheResults = true)
    (hf : s.resultCache.entries.find?
      (fun p => p.1 == getCacheKey s.options.metric q k opts) = some pf) :
    findNearest backend e q k opts s =
      { outcome := Except.ok s.heap.arrays.length
      , state :=
          { s with
            stats := { s.stats with
                calls := s.stats.calls + 1,
                cacheHits := s.stats.cacheHits + 1,
                lastSearchTime := e,
                totalTime := s.stats.totalTime + e },
            resultCache :=
              { max := s.resultCache.max
              , entries := (getCacheKey s.options.metric q k opts, pf.2)
                  :: s.resultCache.entries.filter
                      (fun p => ¬(p.1 == getCacheKey s.options.metric q k opts)) },
            heap := ⟨s.heap.arrays ++ [s.heap.get pf.2]⟩ }
      , backendCall := none } := by
  have hget : s.resultCache.get (getCacheKey s.options.metric q k opts)
      = (some pf.2,
         { max := s.resultCache.max
         , entries := (getCacheKey s.options.metric q k opts, pf.2)
             :: s.resultCache.entries.filter
                 (fun p => ¬(p.1 == getCacheKey s.options.metric q k opts)) }) := by
    unfold LRUCache.get
    rw [hf]
  simp only [findNearest, hc, if_true, hget, Heap.alloc]

/-- The backend path never changes the configuration. -/
theorem callBackendAndFinish_options (backend : Backend) (e : Nat)
    (q : Vector) (k : Nat) (opts : SearchOptions) (s : EngineState) :
    (callBackendAndFinish backend e q k opts s).state.options = s.options := by
  cases hb : backend q k (backendArgs s.options.metric opts) with
  | error err => rw [callBackendAndFinish_error backend e q k opts s err hb]
  | ok R =>
      cases hcr : s.options.cacheResults with
      | false => rw [callBackendAndFinish_ok_nocache backend e q k opts s R hcr hb]
      | true => rw [callBackendAndFinish_ok_cache backend e q k opts s R hcr hb]

/-- The backend path reports exactly one backend invocation, with the
argument record built from the configured metric and the per-call filter
and probes. -/
theorem callBackendAndFinish_backendCall (backend : Backend) (e : Nat)
    (q : Vector) (k : Nat) (opts : SearchOptions) (s : EngineState) :
    (callBackendAndFinish backend e q k opts s).backendCall
      = some { query := q, k := k
             , options := backendArgs s.options.metric opts } := by
  cases hb : backend q k (backendArgs s.options.metric opts) with
  | error err => rw [callBackendAndFinish_error backend e q k opts s err hb]
  | ok R =>
      cases hcr : s.options.cacheResults with
      | false => rw [callBackendAndFinish_ok_nocache backend e q k opts s R hcr hb]
      | true => rw [callBackendAndFinish_ok_cache backend e q k opts s R hcr hb]

/-- The backend path touches neither `calls` nor the hit/miss counters,
and can only grow `totalTime`. -/
theorem callBackendAndFinish_stats (backend : Backend) (e : Nat)
    (q : Vector) (k : Nat) (opts : SearchOptions) (s : EngineState) :
    (callBackendAndFinish backend e q k opts s).state.stats.calls = s.stats.calls
    ∧ (callBackendAndFinish backend e q k opts s).state.stats.cacheHits
        = s.stats.cacheHits
    ∧ (callBackendAndFinish backend e q k opts s).state.stats.cacheMisses
        = s.stats.cacheMisses
    ∧ s.stats.totalTime
        ≤ (callBackendAndFinish backend e q k opts s).state.stats.totalTime := by
  cases hb : backend q k (backendArgs s.options.metric opts) with
  | error err =>
      rw [callBackendAndFinish_error backend e q k opts s err hb]
      exact ⟨rfl, rfl, rfl, Nat.le_refl _⟩
  | ok R =>
      cases hcr : s.options.cacheResults with
      | false =>
          rw [callBackendAndFinish_ok_nocache backend e q k opts s R hcr hb]
          exact ⟨rfl, rfl, rfl, Nat.le_add_right _ _⟩
      | true =>
          rw [callBackendAndFinish_ok_cache backend e q k opts s R hcr hb]
          exact ⟨rfl, rfl, rfl, Nat.le_add_right _ _⟩

/-- One call never changes the configuration. -/
theorem findNearest_options (backend : Backend) (e : Nat) (q : Vector)
    (k : Nat) (opts : SearchOptions) (s : EngineState) :
    (findNearest backend e q k opts s).state.options = s.options := by
  cases hcr : s.options.cacheResults with
  | false =>
      rw [findNearest_nocache_eq hcr]
      exact callBackendAndFinish_options backend e q k opts _
  | true =>
      cases hf : s.resultCache.entries.find?
          (fun p => p.1 == getCacheKey s.options.metric q k opts) with
      | some pf => rw [findNearest_hit_eq hcr hf]
      | none =>
          rw [findNearest_miss_eq hcr (by unfold LRUCache.lookup; rw [hf]; rfl)]
          exact callBackendAndFinish_options backend e q k opts _

/-- Statistics effect of one call with caching enabled: `calls` goes up by
one, `totalTime` never shrinks, and exactly one of `cacheHits` and
`cacheMisses` goes up by one. -/
theorem findNearest_stats_cache (backend : Backend) (e : Nat) (q : Vector)
    (k : Nat) (opts : SearchOptions) (s : EngineState)
    (hc : s.options.cacheResults = true) :
    (findNearest backend e q k opts s).state.stats.calls = s.stats.calls + 1
    ∧ s.stats.totalTime
        ≤ (findNearest backend e q k opts s).state.stats.totalTime
    ∧ (((findNearest backend e q k opts s).state.stats.cacheHits
          = s.stats.cacheHits + 1
        ∧ (findNearest backend e q k opts s).state.stats.cacheMisses
          = s.stats.cacheMisses)
      ∨ ((findNearest backend e q k opts s).state.stats.cacheHits
          = s.stats.cacheHits
        ∧ (findNearest backend e q k opts s).state.stats.cacheMisses
          = s.stats.cacheMisses + 1)) := by
  cases hf : s.resultCache.entries.find?
      (fun p => p.1 == getCacheKey s.options.metric q k opts) with
  | some pf =>
      rw [findNearest_hit_eq hc hf]
      exact ⟨rfl, Nat.le_add_right _ _, Or.inl ⟨rfl, rfl⟩⟩
  | none =>
      rw [findNearest_miss_eq hc (by unfold LRUCache.lookup; rw [hf]; rfl)]
      have hcb := callBackendAndFinish_stats backend e q k opts
        { s with stats := { s.stats with
            calls := s.stats.calls + 1,
            cacheMisses := s.stats.cacheMisses + 1 } }
      exact ⟨hcb.1, Nat.le_trans (Nat.le_refl _) hcb.2.2.2,
        Or.inr ⟨hcb.2.1, hcb.2.2.1⟩⟩

/-- Statistics effect of one call with caching disabled: `calls` goes up
by one, `totalTime` never shrinks, the hit/miss counters are untouched. -/
theorem findNearest_stats_nocache (backend : Backend) (e : Nat) (q : Vector)
    (k : Nat) (opts : SearchOptions) (s : EngineState)
    (hc : s.options.cacheResults = false) :
    (findNearest backend e q k opts s).state.stats.calls = s.stats.calls + 1
    ∧ s.stats.totalTime
        ≤ (findNearest backend e q k opts s).state.stats.totalTime
    ∧ (findNearest backend e q k opts s).state.stats.cacheHits
        = s.stats.cacheHits
    ∧ (findNearest backend e q k opts s).state.stats.cacheMisses
        = s.stats.cacheMisses := by
  rw [findNearest_nocache_eq hc]
  have hcb := callBackendAndFinish_stats backend e q k opts
    { s with stats := { s.stats with calls := s.stats.calls + 1 } }
  exact ⟨hcb.1, hcb.2.2.2, hcb.2.1, hcb.2.2.1⟩

/-! ## Claim theorems -/

/-- Claim C2: across any sequence of `findNearest` calls the counters
`calls`, `totalTime`, `cacheHits` and `cacheMisses` are non-decreasing,
and when caching is enabled (the configuration is per-instance and
immutable, so it is enabled for every call exactly when it is enabled in
the state) the invariant `cacheHits + cacheMisses = calls` is preserved
through every call, completed or failed. -/
theorem stats_monotone_and_invariant :
    ∀ (cs : List CallSpec) (s : EngineState),
    (s.stats.calls ≤ (runCalls cs s).stats.calls
      ∧ s.stats.totalTime ≤ (runCalls cs s).stats.totalTime
      ∧ s.stats.cacheHits ≤ (runCalls cs s).stats.cacheHits
      ∧ s.stats.cacheMisses ≤ (runCalls cs s).stats.cacheMisses)
    ∧ (s.options.cacheResults = true →
        s.stats.cacheHits + s.stats.cacheMisses = s.stats.calls →
        (runCalls cs s).stats.cacheHits + (runCalls cs s).stats.cacheMisses
          = (runCalls cs s).stats.calls)
  | [], s => ⟨⟨Nat.le_refl _, Nat.le_refl _, Nat.le_refl _, Nat.le_refl _⟩,
      fun _ h => h⟩
  | c :: rest, s => by
      have hstep :
          (findNearest c.backend c.elapsed c.query c.k c.options s).state.stats.calls
            = s.stats.calls + 1
          ∧ s.stats.totalTime
            ≤ (findNearest c.backend c.elapsed c.query c.k c.options s).state.stats.totalTime
          ∧ s.stats.cacheHits
            ≤ (findNearest c.backend c.elapsed c.query c.k c.options s).state.stats.cacheHits
          ∧ s.stats.cacheMisses
            ≤ (findNearest c.backend c.elapsed c.query c.k c.options s).state.stats.cacheMisses
          ∧ (s.options.cacheResults = true →
              (findNearest c.backend c.elapsed c.query c.k c.options s).state.stats.cacheHits
                + (findNearest c.backend c.elapsed c.query c.k c.options s).state.stats.cacheMisses
                = s.stats.cacheHits + s.stats.cacheMisses + 1) := by
        cases hcr : s.options.cacheResults with
        | true =>
            have h := findNearest_stats_cache c.backend c.elapsed c.query c.k c.options s hcr
            obtain ⟨h1, h2, h3⟩ := h
            cases h3 with
            | inl hl =>
                exact ⟨h1, h2, by omega, by omega, fun _ => by omega⟩
            | inr hr =>
                exact ⟨h1, h2, by omega, by omega, fun _ => by omega⟩
        | false =>
            have h := findNearest_stats_nocache c.backend c.elapsed c.query c.k c.options s hcr
            refine ⟨h.1, h.2.1, Nat.le_of_eq h.2.2.1.symm, Nat.le_of_eq h.2.2.2.symm,
              fun hct => ?_⟩
            exact absurd hct (by simp)
      have ih := stats_monotone_and_invariant rest
        (findNearest c.backend c.elapsed c.query c.k c.options s).state
      have hruns : runCalls (c :: rest) s
          = runCalls rest (findNearest c.backend c.elapsed c.query c.k c.options s).state := rfl
      rw [hruns]
      constructor
      · exact ⟨Nat.le_trans (by omega) ih.1.1,
          Nat.le_trans hstep.2.1 ih.1.2.1,
          Nat.le_trans hstep.2.2.1 ih.1.2.2.1,
          Nat.le_trans hstep.2.2.2.1 ih.1.2.2.2⟩
      · intro hc hinv
        apply ih.2
        · rw [findNearest_options]; exact hc
        · have h5 := hstep.2.2.2.2 hc
          have h1 := hstep.1
          omega

/-- Witness for C2 at a concrete one-call sequence from a fresh engine. -/
theorem stats_monotone_and_invariant_witness :
    (runCalls
        [{ backend := fun _ _ _ => Except.ok [], elapsed := 5, query := [3],
           k := 2, options := { filter := none, probes := none, extra := none } }]
        (initState { metric := none, cacheResults := none })).stats.cacheHits
      + (runCalls
        [{ backend := fun _ _ _ => Except.ok [], elapsed := 5, query := [3],
           k := 2, options := { filter := none, probes := none, extra := none } }]
        (initState { metric := none, cacheResults := none })).stats.cacheMisses
      = (runCalls
        [{ backend := fun _ _ _ => Except.ok [], elapsed := 5, query := [3],
           k := 2, options := { filter := none, probes := none, extra := none } }]
        (initState { metric := none, cacheResults := none })).stats.calls :=
  (stats_monotone_and_invariant
    [{ backend := fun _ _ _ => Except.ok [], elapsed := 5, query := [3],
       k := 2, options := { filter := none, probes := none, extra := none } }]
    (initState { metric := none, cacheResults := none })).2 rfl rfl

/-- Claim C9: the statistics snapshot derives `avgTime` as
`totalTime / calls` exactly when `calls > 0` and as `0` when `calls = 0`
(so the division is guarded against a zero divisor), and it reports the
current cache size. -/
theorem getStats_avgTime_and_size (s : EngineState) :
    (0 < s.stats.calls →
      (getStats s).avgTime = (s.stats.totalTime : Rat) / (s.stats.calls : Rat))
    ∧ (s.stats.calls = 0 → (getStats s).avgTime = 0)
    ∧ (getStats s).cachedResultsCount = s.resultCache.size := by
  refine ⟨fun h => ?_, fun h => ?_, rfl⟩
  · unfold getStats
    dsimp only
    rw [if_pos h]
  · unfold getStats
    dsimp only
    rw [if_neg (by omega)]

/-- Witness for C9 at a two-call statistics record and at a fresh engine. -/
theorem getStats_avgTime_and_size_witness :
    (getStats
      { options := { metric := "euclidean", cacheResults := true }
      , resultCache := { max := 1000, entries := [] }
      , heap := ⟨[]⟩
      , stats := { calls := 2, totalTime := 30, lastSearchTime := 10
                 , cacheHits := 1, cacheMisses := 1 } }).avgTime
      = (30 : Rat) / (2 : Rat)
    ∧ (getStats (initState { metric := none, cacheResults := none })).avgTime
      = 0 :=
  ⟨(getStats_avgTime_and_size _).1 (by decide),
   (getStats_avgTime_and_size _).2.1 rfl⟩

/-- Claim C7: the result cache never exceeds its capacity under any
sequence of operations, inserting a new key into a full cache evicts
exactly the least-recently-used entry (as a total function, never an
error), the default configuration fixes the capacity at 1000, and the
concrete scenario capacity 2, insert A, insert B, access A, insert C
leaves exactly A and C with B evicted. -/
theorem cache_eviction_bound :
    (∀ (ops : List CacheOp) (c : LRUCache Nat),
        c.size ≤ c.max → (applyOps c ops).size ≤ c.max)
    ∧ (∀ (c : LRUCache Nat) (key : String) (v : Nat),
        c.lookup key = none → c.size = c.max → 0 < c.max →
        (c.set key v).entries = (key, v) :: c.entries.dropLast)
    ∧ (∀ o : KNNOptionsPartitioned, (initState o).resultCache.max = 1000)
    ∧ (applyOps { max := 2, entries := [] }
        [CacheOp.setOp "A" 1, CacheOp.setOp "B" 2, CacheOp.getOp "A",
         CacheOp.setOp "C" 3]).entries = [("C", 3), ("A", 1)] := by
  refine ⟨fun ops c h => (applyOps_size_le ops c h).2,
    LRUCache.set_full_new_key, fun _ => rfl, by decide⟩

/-- Witness for C7 at a concrete operation list and a concrete full
cache. -/
theorem cache_eviction_bound_witness :
    (applyOps { max := 2, entries := [] } [CacheOp.setOp "A" 1]).size ≤ 2
    ∧ (({ max := 2, entries := [("A", 1), ("B", 2)] } : LRUCache Nat).set
        "C" 3).entries
      = ("C", 3) :: ([("A", 1), ("B", 2)] : List (String × Nat)).dropLast :=
  ⟨cache_eviction_bound.1 [CacheOp.setOp "A" 1] { max := 2, entries := [] }
      (by decide),
   cache_eviction_bound.2.1 { max := 2, entries := [("A", 1), ("B", 2)] }
      "C" 3 (by decide) (by decide) (by decide)⟩

/-- Claim C4: the cache key's filter field is the fixed sentinel
`"noFilter"` when no filter is present, and otherwise derives only from
the length of the filter's textual representation; hence two filters of
equal textual length produce identical cache keys when everything else
agrees. -/
theorem filter_fingerprint_weak :
    filterInfo none = "noFilter"
    ∧ (∀ f : String, filterInfo (some f) = "filterHash:" ++ natToDecimal f.length)
    ∧ (∀ (metric : String) (q : Vector) (k : Nat) (f1 f2 : String)
        (p : Option Nat) (e : Option String),
        f1.length = f2.length →
        getCacheKey metric q k { filter := some f1, probes := p, extra := e }
          = getCacheKey metric q k { filter := some f2, probes := p, extra := e }) := by
  refine ⟨rfl, fun f => rfl, fun metric q k f1 f2 p e h => ?_⟩
  unfold getCacheKey filterInfo
  dsimp only
  rw [h]

/-- Witness for C4 at two distinct equal-length filters. -/
theorem filter_fingerprint_weak_witness :
    getCacheKey "euclidean" [10000] 5
        { filter := some "ab", probes := none, extra := none }
      = getCacheKey "euclidean" [10000] 5
        { filter := some "cd", probes := none, extra := none } :=
  filter_fingerprint_weak.2.2 "euclidean" [10000] 5 "ab" "cd" none none
    (by decide)

/-- Claim C5: when the backend call fails, the failure is re-raised
unchanged, the result cache and the whole array heap are exactly as
before the call (nothing is cached, no substitute value is built), and
exactly one backend invocation happened (no retry). -/
theorem backend_failure_propagated (b : Backend) (e : Nat) (q : Vector)
    (k : Nat) (opts : SearchOptions) (s : EngineState) (err : String)
    (hreach : s.options.cacheResults = true →
      s.resultCache.lookup (getCacheKey s.options.metric q k opts) = none)
    (hb : b q k (backendArgs s.options.metric opts) = Except.error err) :
    (findNearest b e q k opts s).outcome = Except.error err
    ∧ (findNearest b e q k opts s).state.resultCache = s.resultCache
    ∧ (findNearest b e q k opts s).state.heap = s.heap
    ∧ (findNearest b e q k opts s).backendCall
        = some { query := q, k := k
               , options := backendArgs s.options.metric opts } := by
  cases hcr : s.options.cacheResults with
  | false =>
      have herr := callBackendAndFinish_error b e q k opts
        { s with stats := { s.stats with calls := s.stats.calls + 1 } } err hb
      rw [findNearest_nocache_eq hcr, herr]
      exact ⟨rfl, rfl, rfl, rfl⟩
  | true =>
      have herr := callBackendAndFinish_error b e q k opts
        { s with stats := { s.stats with
            calls := s.stats.calls + 1,
            cacheMisses := s.stats.cacheMisses + 1 } } err hb
      rw [findNearest_miss_eq hcr (hreach hcr), herr]
      exact ⟨rfl, rfl, rfl, rfl⟩

/-- Witness for C5 at a concrete always-failing backend. -/
theorem backend_failure_propagated_witness :
    (findNearest (fun _ _ _ => Except.error "backend down") 7 [5] 3
        { filter := none, probes := none, extra := none }
        (initState { metric := none, cacheResults := none })).outcome
      = Except.error "backend down" :=
  (backend_failure_propagated (fun _ _ _ => Except.error "backend down") 7
    [5] 3 { filter := none, probes := none, extra := none }
    (initState { metric := none, cacheResults := none }) "backend down"
    (fun _ => rfl) rfl).1

/-- Claim C10: a call with caching enabled whose lookup misses and whose
backend then fails re-raises the failure after incrementing `calls` and
`cacheMisses` by one, while `totalTime` and `lastSearchTime` are left
exactly as they were. -/
theorem failed_call_statistics (b : Backend) (e : Nat) (q : Vector) (k : Nat)
    (opts : SearchOptions) (s : EngineState) (err : String)
    (hc : s.options.cacheResults = true)
    (hmiss : s.resultCache.lookup (getCacheKey s.options.metric q k opts) = none)
    (hb : b q k (backendArgs s.options.metric opts) = Except.error err) :
    (findNearest b e q k opts s).outcome = Except.error err
    ∧ (findNearest b e q k opts s).state.stats.calls = s.stats.calls + 1
    ∧ (findNearest b e q k opts s).state.stats.cacheMisses
        = s.stats.cacheMisses + 1
    ∧ (findNearest b e q k opts s).state.stats.totalTime = s.stats.totalTime
    ∧ (findNearest b e q k opts s).state.stats.lastSearchTime
        = s.stats.lastSearchTime := by
  have herr := callBackendAndFinish_error b e q k opts
    { s with stats := { s.stats with
        calls := s.stats.calls + 1,
        cacheMisses := s.stats.cacheMisses + 1 } } err hb
  rw [findNearest_miss_eq hc hmiss, herr]
  exact ⟨rfl, rfl, rfl, rfl, rfl⟩

/-- Witness for C10 at a concrete always-failing backend. -/
theorem failed_call_statistics_witness :
    (findNearest (fun _ _ _ => Except.error "io error") 9 [7] 4
        { filter := none, probes := none, extra := none }
        (initState { metric := none, cacheResults := none })).state.stats.calls
      = 1
    ∧ (findNearest (fun _ _ _ => Except.error "io error") 9 [7] 4
        { filter := none, probes := none, extra := none }
        (initState { metric := none, cacheResults := none })).state.stats.totalTime
      = 0 :=
  ⟨(failed_call_statistics (fun _ _ _ => Except.error "io error") 9 [7] 4
      { filter := none, probes := none, extra := none }
      (initState { metric := none, cacheResults := none }) "io error"
      rfl rfl rfl).2.1,
   (failed_call_statistics (fun _ _ _ => Except.error "io error") 9 [7] 4
      { filter := none, probes := none, extra := none }
      (initState { metric := none, cacheResults := none }) "io error"
      rfl rfl rfl).2.2.2.1⟩

/-- Claim C6 (amended): whenever the backend is reached (cache miss or
caching disabled), it is invoked with the normalised query, `k`, the
metric from the configuration (never from per-call options), the
per-call filter and the per-call probes; the other per-call options are
NOT forwarded — the argument record carries no extra field content. -/
theorem backend_invocation_arguments (b : Backend) (e : Nat) (q : Vector)
    (k : Nat) (opts : SearchOptions) (s : EngineState)
    (hreach : s.options.cacheResults = true →
      s.resultCache.lookup (getCacheKey s.options.metric q k opts) = none) :
    (findNearest b e q k opts s).backendCall
      = some { query := q, k := k
             , options := { filter := opts.filter
                          , distanceMetric := s.options.metric
                          , probes := opts.probes
                          , extra := none } } := by
  cases hcr : s.options.cacheResults with
  | false =>
      rw [findNearest_nocache_eq hcr]
      exact callBackendAndFinish_backendCall b e q k opts _
  | true =>
      rw [findNearest_miss_eq hcr (hreach hcr)]
      exact callBackendAndFinish_backendCall b e q k opts _

/-- Witness for C6 (amended) at a concrete configuration. -/
theorem backend_invocation_arguments_witness :
    (findNearest (fun _ _ _ => Except.ok []) 1 [5] 3
        { filter := none, probes := some 2, extra := none }
        (initState { metric := some "cosine", cacheResults := none })).backendCall
      = some { query := [5], k := 3
             , options := { filter := none, distanceMetric := "cosine"
                          , probes := some 2, extra := none } } :=
  backend_invocation_arguments (fun _ _ _ => Except.ok []) 1 [5] 3
    { filter := none, probes := some 2, extra := none }
    (initState { metric := some "cosine", cacheResults := none })
    (fun _ => rfl)

/-- Counterexample to C6 as stated: with a per-call extra option present,
the backend receives an argument record whose extra field is empty, so
"all other per-call options passed through unmodified" fails. -/
theorem backend_invocation_counterexample :
    (findNearest (fun _ _ _ => Except.ok []) 1 [5] 3
        { filter := none, probes := none, extra := some "includeMetadata" }
        (initState { metric := none, cacheResults := some false })).backendCall.map
        (fun c => c.options.extra) = some none
    ∧ ({ filter := none, probes := none, extra := some "includeMetadata" }
        : SearchOptions).extra ≠ none := by decide

/-- Equation for a call that hits a one-entry cache holding the call's own
key: the backend is not invoked, the hit counter advances, and a fresh
copy of the cached array is allocated and returned. -/
theorem findNearest_hit_on_singleton (b : Backend) (e : Nat) (q : Vector)
    (k : Nat) (opts : SearchOptions) (cfg : KNNOptions) (hp : Heap)
    (st : KNNStats) (r : Nat) (hc : cfg.cacheResults = true) :
    findNearest b e q k opts
      { options := cfg
      , resultCache := { max := 1000
                       , entries := [(getCacheKey cfg.metric q k opts, r)] }
      , heap := hp
      , stats := st }
    = { outcome := Except.ok hp.arrays.length
      , state :=
          { options := cfg
          , resultCache := { max := 1000
                           , entries := [(getCacheKey cfg.metric q k opts, r)] }
          , heap := ⟨hp.arrays ++ [hp.get r]⟩
          , stats := { calls := st.calls + 1
                     , totalTime := st.totalTime + e
                     , lastSearchTime := e
                     , cacheHits := st.cacheHits + 1
                     , cacheMisses := st.cacheMisses } }
      , backendCall := none } := by
  have hf : List.find? (fun p => p.1 == getCacheKey cfg.metric q k opts)
      [(getCacheKey cfg.metric q k opts, r)]
      = some (getCacheKey cfg.metric q k opts, r) := by
    simp
  have h := @findNearest_hit_eq b e q k opts
    { options := cfg
    , resultCache := { max := 1000
                     , entries := [(getCacheKey cfg.metric q k opts, r)] }
    , heap := hp
    , stats := st } (getCacheKey cfg.metric q k opts, r) hc hf
  rw [h]
  simp

/-- Claim C1: from a fresh engine with caching enabled, a first
`findNearest Q 5` is a miss that invokes the backend and returns its
results `R`; a second identical call is a hit that returns a sequence
equal to `R` without invoking the backend, after which
`cacheHits = 1` and `cacheMisses = 1`. -/
theorem miss_then_hit (o : KNNOptionsPartitioned) (b : Backend)
    (e1 e2 : Nat) (Q : Vector) (opts : SearchOptions)
    (R : List SearchResult)
    (hc : (mergeOptions o).cacheResults = true)
    (hb : b Q 5 (backendArgs (mergeOptions o).metric opts) = Except.ok R) :
    (findNearest b e1 Q 5 opts (initState o)).returned = Except.ok R
    ∧ (findNearest b e1 Q 5 opts (initState o)).backendCall ≠ none
    ∧ (findNearest b e2 Q 5 opts
        (findNearest b e1 Q 5 opts (initState o)).state).returned
      = Except.ok R
    ∧ (findNearest b e2 Q 5 opts
        (findNearest b e1 Q 5 opts (initState o)).state).backendCall = none
    ∧ (findNearest b e2 Q 5 opts
        (findNearest b e1 Q 5 opts (initState o)).state).state.stats.cacheHits
      = 1
    ∧ (findNearest b e2 Q 5 opts
        (findNearest b e1 Q 5 opts (initState o)).state).state.stats.cacheMisses
      = 1 := by
  have h2 : findNearest b e1 Q 5 opts (initState o)
      = { outcome := Except.ok 0
        , state :=
            { options := mergeOptions o
            , resultCache :=
                { max := 1000
                , entries := [(getCacheKey (mergeOptions o).metric Q 5 opts, 1)] }
            , heap := ⟨[R, R]⟩
            , stats :=
                { calls := 1, totalTime := 0 + e1, lastSearchTime := e1
                , cacheHits := 0, cacheMisses := 1 } }
        , backendCall := some { query := Q, k := 5
                              , options := backendArgs (mergeOptions o).metric opts } } := by
    have h1 := @findNearest_miss_eq b e1 Q 5 opts (initState o) hc rfl
    have h2' := callBackendAndFinish_ok_cache b e1 Q 5 opts
      { initState o with stats := { (initState o).stats with
          calls := (initState o).stats.calls + 1,
          cacheMisses := (initState o).stats.cacheMisses + 1 } } R hc hb
    exact h1.trans h2'
  have h2s : (findNearest b e1 Q 5 opts (initState o)).state
      = { options := mergeOptions o
        , resultCache :=
            { max := 1000
            , entries := [(getCacheKey (mergeOptions o).metric Q 5 opts, 1)] }
        , heap := ⟨[R, R]⟩
        , stats :=
            { calls := 1, totalTime := 0 + e1, lastSearchTime := e1
            , cacheHits := 0, cacheMisses := 1 } } :=
    congrArg CallResult.state h2
  rw [h2s]
  rw [findNearest_hit_on_singleton b e2 Q 5 opts (mergeOptions o) ⟨[R, R]⟩
    { calls := 1, totalTime := 0 + e1, lastSearchTime := e1
    , cacheHits := 0, cacheMisses := 1 } 1 hc]
  rw [h2]
  exact ⟨rfl, fun hcon => Option.noConfusion hcon, rfl, rfl, rfl, rfl⟩


/-- Witness for C1 at a concrete backend and query. -/
theorem miss_then_hit_witness :
    (findNearest (fun _ _ _ => Except.ok [{ id := "a", dist := 7 }]) 20
        [10000] 5 { filter := none, probes := none, extra := none }
        (findNearest (fun _ _ _ => Except.ok [{ id := "a", dist := 7 }]) 10
          [10000] 5 { filter := none, probes := none, extra := none }
          (initState { metric := none, cacheResults := none })).state).state.stats.cacheHits
      = 1 :=
  (miss_then_hit { metric := none, cacheResults := none }
    (fun _ _ _ => Except.ok [{ id := "a", dist := 7 }]) 10 20 [10000]
    { filter := none, probes := none, extra := none }
    [{ id := "a", dist := 7 }] rfl rfl).2.2.2.2.1

/-- Two cache keys that agree while everything except `k` is shared force
`k` to agree (cancel the shared fields, then decimal rendering is
injective). -/
theorem getCacheKey_k_inj (metric : String) (q : Vector) (k1 k2 : Nat)
    (opts : SearchOptions)
    (h : getCacheKey metric q k1 opts = getCacheKey metric q k2 opts) :
    k1 = k2 := by
  simp only [getCacheKey] at h
  have hd := congrArg String.data h
  simp only [String.data_append] at hd
  have h1 := List.append_cancel_right hd
  have h2 := List.append_cancel_right h1
  have h3 := List.append_cancel_right h2
  have h4 := List.append_cancel_right h3
  have h5 := List.append_cancel_right h4
  have h6 := List.append_cancel_right h5
  have h7 := List.append_cancel_left h6
  exact natToDecimal_injective (String.ext h7)

/-- Two cache keys that agree while everything except the metric is
shared force the metric to agree. -/
theorem getCacheKey_metric_inj (m1 m2 : String) (q : Vector) (k : Nat)
    (opts : SearchOptions)
    (h : getCacheKey m1 q k opts = getCacheKey m2 q k opts) :
    m1 = m2 := by
  simp only [getCacheKey] at h
  have hd := congrArg String.data h
  simp only [String.data_append] at hd
  have h1 := List.append_cancel_right hd
  have h2 := List.append_cancel_right h1
  have h3 := List.append_cancel_right h2
  have h4 := List.append_cancel_right h3
  have h5 := List.append_cancel_left h4
  exact String.ext h5

/-- A probes fragment for a truthy probes value is never the empty
string. -/
theorem probes_append_ne_empty (n : Nat) :
    ¬("probes" ++ natToDecimal n = "") := by
  intro hcon
  have hd := congrArg String.data hcon
  rw [String.data_append] at hd
  have hlen := congrArg List.length hd
  rw [List.length_append] at hlen
  have h6 : ("probes".data).length = 6 := rfl
  have h0 : (("" : String).data).length = 0 := rfl
  rw [h6, h0] at hlen
  omega

/-- The probes fragment separates two probes values as long as at least
one of them is truthy (present and nonzero). -/
theorem probesInfo_inj (p1 p2 : Option Nat)
    (htruthy : p1.getD 0 ≠ 0 ∨ p2.getD 0 ≠ 0)
    (h : probesInfo p1 = probesInfo p2) : p1 = p2 := by
  cases p1 with
  | none =>
      cases p2 with
      | none => rfl
      | some b =>
          exfalso
          have hb : b ≠ 0 := by
            rcases htruthy with hx | hx
            · simp at hx
            · simpa using hx
          simp only [probesInfo] at h
          rw [if_neg hb] at h
          exact probes_append_ne_empty b h.symm
  | some a =>
      cases p2 with
      | none =>
          exfalso
          have ha : a ≠ 0 := by
            rcases htruthy with hx | hx
            · simpa using hx
            · simp at hx
          simp only [probesInfo] at h
          rw [if_neg ha] at h
          exact probes_append_ne_empty a h
      | some b =>
          simp only [probesInfo] at h
          by_cases ha : a = 0 <;> by_cases hb : b = 0
          · rw [ha, hb]
          · exfalso
            rw [if_pos ha, if_neg hb] at h
            exact probes_append_ne_empty b h.symm
          · exfalso
            rw [if_neg ha, if_pos hb] at h
            exact probes_append_ne_empty a h
          · rw [if_neg ha, if_neg hb] at h
            have hd := congrArg String.data h
            simp only [String.data_append] at hd
            have := natToDecimal_injective (String.ext (List.append_cancel_left hd))
            rw [this]

/-- Two cache keys that agree while everything except probes is shared
force the probes values to agree, provided at least one is truthy. -/
theorem getCacheKey_probes_inj (metric : String) (q : Vector) (k : Nat)
    (f : Option String) (x1 x2 : Option String) (p1 p2 : Option Nat)
    (htruthy : p1.getD 0 ≠ 0 ∨ p2.getD 0 ≠ 0)
    (h : getCacheKey metric q k { filter := f, probes := p1, extra := x1 }
       = getCacheKey metric q k { filter := f, probes := p2, extra := x2 }) :
    p1 = p2 := by
  simp only [getCacheKey] at h
  have hd := congrArg String.data h
  simp only [String.data_append] at hd
  have h1 := List.append_cancel_left hd
  exact probesInfo_inj p1 p2 htruthy (String.ext h1)

/-- The engine state after one successful cached call from a fresh
engine: a singleton cache holding the call's key, the backend array and
its cached copy on the heap, and one recorded miss. -/
theorem findNearest_first_call_state (o : KNNOptionsPartitioned) (b : Backend)
    (e : Nat) (q : Vector) (k : Nat) (opts : SearchOptions)
    (R : List SearchResult)
    (hc : (mergeOptions o).cacheResults = true)
    (hb : b q k (backendArgs (mergeOptions o).metric opts) = Except.ok R) :
    (findNearest b e q k opts (initState o)).state
      = { options := mergeOptions o
        , resultCache :=
            { max := 1000
            , entries := [(getCacheKey (mergeOptions o).metric q k opts, 1)] }
        , heap := ⟨[R, R]⟩
        , stats :=
            { calls := 1, totalTime := 0 + e, lastSearchTime := e
            , cacheHits := 0, cacheMisses := 1 } } := by
  have h1 := @findNearest_miss_eq b e q k opts (initState o) hc rfl
  have h2' := callBackendAndFinish_ok_cache b e q k opts
    { initState o with stats := { (initState o).stats with
        calls := (initState o).stats.calls + 1,
        cacheMisses := (initState o).stats.cacheMisses + 1 } } R hc hb
  exact congrArg CallResult.state (h1.trans h2')

/-- Equation for a call that misses a one-entry cache holding a
different key. -/
theorem findNearest_miss_on_singleton (b : Backend) (e : Nat) (q : Vector)
    (k : Nat) (opts : SearchOptions) (cfg : KNNOptions) (hp : Heap)
    (st : KNNStats) (key1 : String) (r : Nat)
    (hc : cfg.cacheResults = true)
    (hkne : getCacheKey cfg.metric q k opts ≠ key1) :
    findNearest b e q k opts
      { options := cfg
      , resultCache := { max := 1000, entries := [(key1, r)] }
      , heap := hp
      , stats := st }
    = callBackendAndFinish b e q k opts
      { options := cfg
      , resultCache := { max := 1000, entries := [(key1, r)] }
      , heap := hp
      , stats := { st with
          calls := st.calls + 1,
          cacheMisses := st.cacheMisses + 1 } } := by
  have hbeq : (key1 == getCacheKey cfg.metric q k opts) = false :=
    beq_eq_false_iff_ne.mpr (fun hh => hkne hh.symm)
  have hmiss : LRUCache.lookup { max := 1000, entries := [(key1, r)] }
      (getCacheKey cfg.metric q k opts) = none := by
    simp [LRUCache.lookup, hbeq]
  exact findNearest_miss_eq hc hmiss

/-- Claim C3 (amended): changing `k` or the configured metric between
two otherwise-identical calls always changes the cache key; changing the
per-call probes value changes the key provided at least one of the two
values is truthy (present and nonzero — JavaScript truthiness makes
`probes: 0` indistinguishable from an absent probes); and whenever the
second call's key differs from the first call's, the second call from a
fresh engine is a cache miss that reaches the backend. -/
theorem cacheKey_sensitivity :
    (∀ (metric : String) (q : Vector) (k1 k2 : Nat) (opts : SearchOptions),
        k1 ≠ k2 →
        getCacheKey metric q k1 opts ≠ getCacheKey metric q k2 opts)
    ∧ (∀ (m1 m2 : String) (q : Vector) (k : Nat) (opts : SearchOptions),
        m1 ≠ m2 → getCacheKey m1 q k opts ≠ getCacheKey m2 q k opts)
    ∧ (∀ (metric : String) (q : Vector) (k : Nat) (f : Option String)
        (x1 x2 : Option String) (p1 p2 : Option Nat),
        p1.getD 0 ≠ 0 ∨ p2.getD 0 ≠ 0 → p1 ≠ p2 →
        getCacheKey metric q k { filter := f, probes := p1, extra := x1 }
          ≠ getCacheKey metric q k { filter := f, probes := p2, extra := x2 })
    ∧ (∀ (o : KNNOptionsPartitioned) (b1 b2 : Backend) (e1 e2 : Nat)
        (q1 q2 : Vector) (k1 k2 : Nat) (opts1 opts2 : SearchOptions)
        (R : List SearchResult),
        (mergeOptions o).cacheResults = true →
        b1 q1 k1 (backendArgs (mergeOptions o).metric opts1) = Except.ok R →
        getCacheKey (mergeOptions o).metric q2 k2 opts2
          ≠ getCacheKey (mergeOptions o).metric q1 k1 opts1 →
        (findNearest b2 e2 q2 k2 opts2
          (findNearest b1 e1 q1 k1 opts1 (initState o)).state).backendCall
          ≠ none
        ∧ (findNearest b2 e2 q2 k2 opts2
            (findNearest b1 e1 q1 k1 opts1 (initState o)).state).state.stats.cacheMisses
          = 2) := by
  refine ⟨?_, ?_, ?_, ?_⟩
  · intro metric q k1 k2 opts hne heq
    exact hne (getCacheKey_k_inj metric q k1 k2 opts heq)
  · intro m1 m2 q k opts hne heq
    exact hne (getCacheKey_metric_inj m1 m2 q k opts heq)
  · intro metric q k f x1 x2 p1 p2 ht hne heq
    exact hne (getCacheKey_probes_inj metric q k f x1 x2 p1 p2 ht heq)
  · intro o b1 b2 e1 e2 q1 q2 k1 k2 opts1 opts2 R hc hb hkne
    rw [findNearest_first_call_state o b1 e1 q1 k1 opts1 R hc hb]
    rw [findNearest_miss_on_singleton b2 e2 q2 k2 opts2 (mergeOptions o)
      ⟨[R, R]⟩
      { calls := 1, totalTime := 0 + e1, lastSearchTime := e1
      , cacheHits := 0, cacheMisses := 1 }
      (getCacheKey (mergeOptions o).metric q1 k1 opts1) 1 hc hkne]
    constructor
    · rw [callBackendAndFinish_backendCall b2 e2 q2 k2 opts2 _]
      exact fun hcon => Option.noConfusion hcon
    · rw [(callBackendAndFinish_stats b2 e2 q2 k2 opts2 _).2.2.1]

/-- Counterexample to C3 as stated: changing probes from absent to `0`
(a change of the per-call probes value) yields the SAME cache key, and
the second call is then a cache hit, not a miss. -/
theorem cacheKey_probes_counterexample :
    (getCacheKey "euclidean" [10000] 5
        { filter := none, probes := none, extra := none }
      = getCacheKey "euclidean" [10000] 5
        { filter := none, probes := some 0, extra := none })
    ∧ (none : Option Nat) ≠ some 0
    ∧ (findNearest (fun _ _ _ => Except.ok []) 2 [10000] 5
        { filter := none, probes := some 0, extra := none }
        (findNearest (fun _ _ _ => Except.ok []) 1 [10000] 5
          { filter := none, probes := none, extra := none }
          (initState { metric := none, cacheResults := none })).state).backendCall
      = none
    ∧ (findNearest (fun _ _ _ => Except.ok []) 2 [10000] 5
        { filter := none, probes := some 0, extra := none }
        (findNearest (fun _ _ _ => Except.ok []) 1 [10000] 5
          { filter := none, probes := none, extra := none }
          (initState { metric := none, cacheResults := none })).state).state.stats.cacheHits
      = 1 := by
  have hkeys : getCacheKey
        (mergeOptions { metric := none, cacheResults := none }).metric
        [10000] 5 { filter := none, probes := none, extra := none }
      = getCacheKey
        (mergeOptions { metric := none, cacheResults := none }).metric
        [10000] 5 { filter := none, probes := some 0, extra := none } := rfl
  refine ⟨rfl, by decide, ?_, ?_⟩
  all_goals
    rw [findNearest_first_call_state { metric := none, cacheResults := none }
      (fun _ _ _ => Except.ok []) 1 [10000] 5
      { filter := none, probes := none, extra := none } [] rfl rfl]
  all_goals
    rw [hkeys]
  all_goals
    rw [findNearest_hit_on_singleton (fun _ _ _ => Except.ok []) 2 [10000] 5
      { filter := none, probes := some 0, extra := none }
      (mergeOptions { metric := none, cacheResults := none }) ⟨[[], []]⟩
      { calls := 1, totalTime := 0 + 1, lastSearchTime := 1
      , cacheHits := 0, cacheMisses := 1 } 1 rfl]

/-- Witness for C3 (amended) at concrete diverging parameters. -/
theorem cacheKey_sensitivity_witness :
    (getCacheKey "euclidean" [] 1
        { filter := none, probes := none, extra := none }
      ≠ getCacheKey "euclidean" [] 2
        { filter := none, probes := none, extra := none })
    ∧ (getCacheKey "euclidean" [] 1
        { filter := none, probes := none, extra := none }
      ≠ getCacheKey "cosine" [] 1
        { filter := none, probes := none, extra := none })
    ∧ (getCacheKey "euclidean" [] 1
        { filter := none, probes := some 3, extra := none }
      ≠ getCacheKey "euclidean" [] 1
        { filter := none, probes := some 4, extra := none }) :=
  ⟨cacheKey_sensitivity.1 "euclidean" [] 1 2
      { filter := none, probes := none, extra := none } (by decide),
   cacheKey_sensitivity.2.1 "euclidean" "cosine" [] 1
      { filter := none, probes := none, extra := none } (by decide),
   cacheKey_sensitivity.2.2.1 "euclidean" [] 1 none none none
      (some 3) (some 4) (by decide) (by decide)⟩

/-- Claim C8: whenever a call returns an array reference, that reference
is distinct from every array the cache holds (the cache stores a copy of
the backend's result, and a hit returns a fresh copy of the stored
array), so mutating the returned array never changes what the cache
subsequently returns for any key; cache well-formedness is preserved so
this holds across successive calls. -/
theorem copy_isolation (b : Backend) (e : Nat) (q : Vector) (k : Nat)
    (opts : SearchOptions) (s : EngineState) (r : Nat)
    (hwf : CacheWF s)
    (hok : (findNearest b e q k opts s).outcome = Except.ok r) :
    CacheWF (findNearest b e q k opts s).state
    ∧ (∀ p ∈ (findNearest b e q k opts s).state.resultCache.entries, p.2 ≠ r)
    ∧ (∀ (v : List SearchResult) (p : String × Nat),
        p ∈ (findNearest b e q k opts s).state.resultCache.entries →
        ((findNearest b e q k opts s).state.heap.write r v).get p.2
          = (findNearest b e q k opts s).state.heap.get p.2) := by
  have hmain : CacheWF (findNearest b e q k opts s).state
      ∧ (∀ p ∈ (findNearest b e q k opts s).state.resultCache.entries,
          p.2 ≠ r) := by
    cases hcr : s.options.cacheResults with
    | true =>
        cases hf : s.resultCache.entries.find?
            (fun p => p.1 == getCacheKey s.options.metric q k opts) with
        | some pf =>
            rw [findNearest_hit_eq hcr hf] at hok ⊢
            have hr : (Except.ok s.heap.arrays.length : Except String Nat)
                = Except.ok r := hok
            rw [Except.ok.injEq] at hr
            have hpf : pf ∈ s.resultCache.entries := List.mem_of_find?_eq_some hf
            have hpflt : pf.2 < s.heap.arrays.length := hwf pf hpf
            constructor
            · intro p hp
              have hp' : p ∈ (getCacheKey s.options.metric q k opts, pf.2)
                  :: s.resultCache.entries.filter
                      (fun p2 => ¬(p2.1 == getCacheKey s.options.metric q k opts)) := hp
              show p.2 < (s.heap.arrays ++ [s.heap.get pf.2]).length
              rw [List.length_append]
              simp only [List.mem_cons] at hp'
              cases hp' with
              | inl hpe =>
                  rw [hpe]
                  simp only [List.length_cons, List.length_nil]
                  omega
              | inr hpe =>
                  have := hwf p (List.mem_filter.mp hpe).1
                  simp only [List.length_cons, List.length_nil]
                  omega
            · intro p hp
              have hp' : p ∈ (getCacheKey s.options.metric q k opts, pf.2)
                  :: s.resultCache.entries.filter
                      (fun p2 => ¬(p2.1 == getCacheKey s.options.metric q k opts)) := hp
              simp only [List.mem_cons] at hp'
              cases hp' with
              | inl hpe =>
                  rw [hpe]
                  omega
              | inr hpe =>
                  have := hwf p (List.mem_filter.mp hpe).1
                  omega
        | none =>
            have hmiss : s.resultCache.lookup
                (getCacheKey s.options.metric q k opts) = none := by
              unfold LRUCache.lookup
              rw [hf]
              rfl
            rw [findNearest_miss_eq hcr hmiss] at hok ⊢
            cases hb : b q k (backendArgs s.options.metric opts) with
            | error err =>
                have herr := callBackendAndFinish_error b e q k opts
                  { s with stats := { s.stats with
                      calls := s.stats.calls + 1,
                      cacheMisses := s.stats.cacheMisses + 1 } } err hb
                rw [herr] at hok
                exact Except.noConfusion hok
            | ok R =>
                have hokc := callBackendAndFinish_ok_cache b e q k opts
                  { s with stats := { s.stats with
                      calls := s.stats.calls + 1,
                      cacheMisses := s.stats.cacheMisses + 1 } } R hcr hb
                rw [hokc] at hok ⊢
                have hr : (Except.ok s.heap.arrays.length : Except String Nat)
                    = Except.ok r := hok
                rw [Except.ok.injEq] at hr
                constructor
                · intro p hp
                  have hp' : p ∈ (LRUCache.set s.resultCache
                      (getCacheKey s.options.metric q k opts)
                      (s.heap.arrays.length + 1)).entries := hp
                  have hmem := LRUCache.mem_set_entries hp'
                  show p.2 < ((s.heap.arrays ++ [R]) ++ [R]).length
                  rw [List.length_append, List.length_append]
                  simp only [List.length_cons, List.length_nil]
                  cases hmem with
                  | inl hpe => omega
                  | inr hpe =>
                      obtain ⟨qq, hq, hqv⟩ := hpe
                      have := hwf qq hq
                      omega
                · intro p hp
                  have hp' : p ∈ (LRUCache.set s.resultCache
                      (getCacheKey s.options.metric q k opts)
                      (s.heap.arrays.length + 1)).entries := hp
                  have hmem := LRUCache.mem_set_entries hp'
                  cases hmem with
                  | inl hpe => omega
                  | inr hpe =>
                      obtain ⟨qq, hq, hqv⟩ := hpe
                      have := hwf qq hq
                      omega
    | false =>
        rw [findNearest_nocache_eq hcr] at hok ⊢
        cases hb : b q k (backendArgs s.options.metric opts) with
        | error err =>
            have herr := callBackendAndFinish_error b e q k opts
              { s with stats := { s.stats with calls := s.stats.calls + 1 } }
              err hb
            rw [herr] at hok
            exact Except.noConfusion hok
        | ok R =>
            have hokc := callBackendAndFinish_ok_nocache b e q k opts
              { s with stats := { s.stats with calls := s.stats.calls + 1 } }
              R hcr hb
            rw [hokc] at hok ⊢
            have hr : (Except.ok s.heap.arrays.length : Except String Nat)
                = Except.ok r := hok
            rw [Except.ok.injEq] at hr
            constructor
            · intro p hp
              have hp' : p ∈ s.resultCache.entries := hp
              have := hwf p hp'
              show p.2 < (s.heap.arrays ++ [R]).length
              rw [List.length_append]
              omega
            · intro p hp
              have hp' : p ∈ s.resultCache.entries := hp
              have := hwf p hp'
              omega
  exact ⟨hmain.1, hmain.2,
    fun v p hp => Heap.get_write_ne _ v (hmain.2 p hp)⟩


/-- Witness for C8 at a concrete first call from a fresh engine. -/
theorem copy_isolation_witness :
    CacheWF (findNearest (fun _ _ _ => Except.ok [{ id := "a", dist := 7 }])
      3 [10000] 5 { filter := none, probes := none, extra := none }
      (initState { metric := none, cacheResults := none })).state :=
  (copy_isolation (fun _ _ _ => Except.ok [{ id := "a", dist := 7 }]) 3
    [10000] 5 { filter := none, probes := none, extra := none }
    (initState { metric := none, cacheResults := none }) 0
    (fun p hp => absurd hp (List.not_mem_nil p)) rfl).1
